import Mathlib

/-!
Verification of the concurrent-contention benchmarking subsystem of
src/benchmarks.cpp: the busy-wait Barrier (lines 275-288) and the five
contention benchmarks BM_falseSharing, BM_noFalseSharing, BM_useMutex,
BM_useMutexNoContention and BM_useAtomic (lines 290-466).

Machine integers: every counter in the C++ source is 32 bits wide
(std::uint32_t, or std::atomic_int32_t whose increment wraps modulo 2^32 at
the bit level); we model a 32-bit counter as a Nat reduced modulo 2^32 on
every increment.  All values reached in the claims stay far below 2^31, so
the signed/unsigned distinction for the atomic_int32_t counter never
matters.
-/

namespace Benchmarks

/-- Iteration count of the false-sharing benchmarks,
src/benchmarks.cpp line 290: const auto kNumIterationsFalseSharing = 1000000. -/
def kNumIterationsFalseSharing : Nat := 1000000

/-- Iteration count of the mutex/atomic benchmarks,
src/benchmarks.cpp line 365: const auto kNumIterationsMutex = 1000000. -/
def kNumIterationsMutex : Nat := 1000000

/-- One 32-bit increment, the effect of ++counter on a std::uint32_t or on a
std::atomic_int32_t at the bit level: add one and wrap modulo 2^32. -/
def inc32 (c : Nat) : Nat := (c + 1) % 2 ^ 32

/-- Execution of one trial of a benchmark whose workers all increment ONE
shared 32-bit counter, each increment guarded (lock_guard in BM_useMutex,
lines 374-377 and 381-384; atomic read-modify-write in BM_useAtomic, lines
445-447 and 451-452), so that every increment is an indivisible step.  A
trial execution is an arbitrary interleaving: a list of worker ids, each
entry being one guarded increment by that worker, folded over the counter. -/
def runGuarded {W : Nat} (init : Nat) (sched : List (Fin W)) : Nat :=
  sched.foldl (fun c _ => inc32 c) init

theorem inc32_lt (c : Nat) : inc32 c < 2 ^ 32 :=
  Nat.mod_lt _ (by norm_num)

theorem runGuarded_eq_length {W : Nat} (sched : List (Fin W)) :
    ∀ init : Nat, init < 2 ^ 32 →
      runGuarded init sched = (init + sched.length) % 2 ^ 32 := by
  induction sched with
  | nil =>
      intro init h
      simp only [runGuarded, List.foldl_nil, List.length_nil, Nat.add_zero]
      omega
  | cons x xs ih =>
      intro init h
      have h2 : runGuarded init (x :: xs) = runGuarded (inc32 init) xs := rfl
      rw [h2, ih (inc32 init) (inc32_lt init)]
      simp only [inc32, List.length_cons]
      rw [Nat.mod_add_mod]
      ring_nf

/-- Length of a schedule over W workers is the sum over the workers of the
number of events of each worker. -/
theorem length_eq_sum_count {W : Nat} (l : List (Fin W)) :
    l.length = ∑ w : Fin W, l.count w := by
  induction l with
  | nil => simp
  | cons x xs ih =>
      simp only [List.length_cons, List.count_cons, ih, Finset.sum_add_distrib,
        beq_iff_eq]
      have h1 : (∑ w : Fin W, if x = w then 1 else 0) = 1 := by
        simp
      omega

/-- Program counter of one participant thread of the busy-wait Barrier
(src/benchmarks.cpp lines 275-288): notArrived before executing the
increment ++_numThreadsArrived, waiting while inside the polling while loop
of line 281, finished once arriveAndWait has returned. -/
inductive ThreadPhase where
  | notArrived : ThreadPhase
  | waiting : ThreadPhase
  | finished : ThreadPhase
deriving DecidableEq

/-- Shared state of one Barrier used by k participant threads: the value of
the atomic counter _numThreadsArrived (line 286) and the phase of each thread.
The counter is a std::atomic_int32_t; the trials only ever use at most three
participants, far below 2^31, so we model it as a Nat. -/
structure BarrierState (k : Nat) where
  numThreadsArrived : Nat
  pc : Fin k → ThreadPhase

/-- State produced by the constructor Barrier(numTotalThreads) (line 277):
the member initializer of line 286 sets _numThreadsArrived to 0, and no
participant has called arriveAndWait yet. -/
def BarrierState.init (k : Nat) : BarrierState k :=
  ⟨0, fun _ => ThreadPhase.notArrived⟩

/-- Interleaving semantics of arriveAndWait (lines 279-283) on a Barrier
constructed with _numTotalThreads = R, shared by k threads each calling
arriveAndWait once.  An arrive step is the atomic increment
++_numThreadsArrived of line 280, after which the thread enters the polling
loop; an exitPoll step is one poll of line 281 by a waiting thread that
observes that _numThreadsArrived < _numTotalThreads no longer holds, at
which point arriveAndWait returns.  No other transition exists: the loop
body is empty and there is no timeout or reset. -/
inductive BarrierStep (R : Nat) {k : Nat} :
    BarrierState k → BarrierState k → Prop where
  | arrive (s : BarrierState k) (t : Fin k) (h : s.pc t = .notArrived) :
      BarrierStep R s
        ⟨s.numThreadsArrived + 1, Function.update s.pc t .waiting⟩
  | exitPoll (s : BarrierState k) (t : Fin k) (h : s.pc t = .waiting)
      (hge : ¬ s.numThreadsArrived < R) :
      BarrierStep R s
        ⟨s.numThreadsArrived, Function.update s.pc t .finished⟩

/-- Reachability of a Barrier state from the freshly constructed Barrier by
any interleaving of participant steps. -/
def BarrierReach (R k : Nat) (s : BarrierState k) : Prop :=
  Relation.ReflTransGen (BarrierStep R) (BarrierState.init k) s

/-- Set of threads that have already executed their increment. -/
def arrivedSet {k : Nat} (s : BarrierState k) : Finset (Fin k) :=
  Finset.univ.filter (fun t => s.pc t ≠ ThreadPhase.notArrived)

theorem barrier_inv_count {R k : Nat} {s : BarrierState k}
    (hs : BarrierReach R k s) :
    s.numThreadsArrived = (arrivedSet s).card := by
  induction hs with
  | refl =>
      simp [BarrierState.init, arrivedSet]
  | @tail sMid sNext hab hstep ih =>
      cases hstep with
      | arrive t h =>
          have hset :
              arrivedSet
                (⟨sMid.numThreadsArrived + 1,
                  Function.update sMid.pc t .waiting⟩ : BarrierState k) =
                insert t (arrivedSet sMid) := by
            ext u
            simp only [arrivedSet, Finset.mem_filter, Finset.mem_univ,
              true_and, Finset.mem_insert, Function.update_apply]
            by_cases hu : u = t
            · simp [hu]
            · simp [hu]
          have hnot : t ∉ arrivedSet sMid := by
            simp [arrivedSet, h]
          simp only [hset, Finset.card_insert_of_not_mem hnot]
          omega
      | exitPoll t h hge =>
          have hset :
              arrivedSet
                (⟨sMid.numThreadsArrived,
                  Function.update sMid.pc t .finished⟩ : BarrierState k) =
                arrivedSet sMid := by
            ext u
            simp only [arrivedSet, Finset.mem_filter, Finset.mem_univ,
              true_and, Function.update_apply]
            by_cases hu : u = t
            · subst hu
              simp [h]
            · simp [hu]
          simpa [hset] using ih

theorem barrier_inv_finished {R k : Nat} {s : BarrierState k}
    (hs : BarrierReach R k s) :
    ∀ t : Fin k, s.pc t = ThreadPhase.finished → R ≤ s.numThreadsArrived := by
  induction hs with
  | refl =>
      intro t ht
      simp [BarrierState.init] at ht
  | @tail sMid sNext hab hstep ih =>
      cases hstep with
      | arrive t h =>
          intro u hu
          simp only [Function.update_apply] at hu
          by_cases huv : u = t
          · simp [huv] at hu
          · simp only [huv, if_false] at hu
            have := ih u hu
            simp only []
            omega
      | exitPoll t h hge =>
          intro u hu
          by_cases huv : u = t
          · simp only []
            omega
          · simp only [Function.update_apply, huv, if_false] at hu
            exact ih u hu

/-- Intermediate state of the canonical rendezvous schedule: the first m of
N participants have arrived (and are polling), the others have not yet
called arriveAndWait. -/
def arrivedUpTo (N m : Nat) : BarrierState N :=
  ⟨m, fun t => if t.val < m then ThreadPhase.waiting else ThreadPhase.notArrived⟩

/-- Intermediate state of the release phase: all N participants have
arrived, and the first m have already left the polling loop. -/
def finishedUpTo (N m : Nat) : BarrierState N :=
  ⟨N, fun t => if t.val < m then ThreadPhase.finished else ThreadPhase.waiting⟩

theorem reach_arrivedUpTo (N : Nat) :
    ∀ m, m ≤ N → BarrierReach N N (arrivedUpTo N m) := by
  intro m
  induction m with
  | zero =>
      intro _
      have h0 : arrivedUpTo N 0 = BarrierState.init N := by
        unfold arrivedUpTo BarrierState.init
        congr 1
      rw [h0]
      exact Relation.ReflTransGen.refl
  | succ m ih =>
      intro hm
      have hmN : m < N := by omega
      have hreach := ih (by omega)
      have hpc : (arrivedUpTo N m).pc ⟨m, hmN⟩ = ThreadPhase.notArrived := by
        simp [arrivedUpTo]
      have hstep := BarrierStep.arrive (R := N) (arrivedUpTo N m) ⟨m, hmN⟩ hpc
      have heq :
          (⟨(arrivedUpTo N m).numThreadsArrived + 1,
            Function.update (arrivedUpTo N m).pc ⟨m, hmN⟩
              ThreadPhase.waiting⟩ : BarrierState N) =
            arrivedUpTo N (m + 1) := by
        unfold arrivedUpTo
        congr 1
        funext t
        rw [Function.update_apply]
        by_cases ht : t = ⟨m, hmN⟩
        · subst ht
          simp
        · have htv : t.val ≠ m := fun hc => ht (Fin.ext hc)
          have hiff : (t.val < m) ↔ (t.val < m + 1) := by omega
          simp [ht, hiff]
      rw [heq] at hstep
      exact Relation.ReflTransGen.tail hreach hstep

theorem reach_finishedUpTo (N : Nat) :
    ∀ m, m ≤ N → BarrierReach N N (finishedUpTo N m) := by
  intro m
  induction m with
  | zero =>
      intro _
      have h0 : finishedUpTo N 0 = arrivedUpTo N N := by
        unfold finishedUpTo arrivedUpTo
        congr 1
        funext t
        simp [t.isLt]
      rw [h0]
      exact reach_arrivedUpTo N N le_rfl
  | succ m ih =>
      intro hm
      have hmN : m < N := by omega
      have hreach := ih (by omega)
      have hpc : (finishedUpTo N m).pc ⟨m, hmN⟩ = ThreadPhase.waiting := by
        simp [finishedUpTo]
      have hge : ¬ (finishedUpTo N m).numThreadsArrived < N := by
        simp [finishedUpTo]
      have hstep :=
        BarrierStep.exitPoll (R := N) (finishedUpTo N m) ⟨m, hmN⟩ hpc hge
      have heq :
          (⟨(finishedUpTo N m).numThreadsArrived,
            Function.update (finishedUpTo N m).pc ⟨m, hmN⟩
              ThreadPhase.finished⟩ : BarrierState N) =
            finishedUpTo N (m + 1) := by
        unfold finishedUpTo
        congr 1
        funext t
        rw [Function.update_apply]
        by_cases ht : t = ⟨m, hmN⟩
        · subst ht
          simp
        · have htv : t.val ≠ m := fun hc => ht (Fin.ext hc)
          have hiff : (t.val < m) ↔ (t.val < m + 1) := by omega
          simp [ht, hiff]
      rw [heq] at hstep
      exact Relation.ReflTransGen.tail hreach hstep

/-- C3: for every participant count N ≥ 1, when a Barrier is constructed
with requiredParticipants = N and exactly N threads each call
arriveAndWait() once, no call returns before all N threads have called
arriveAndWait (safety: in every reachable state, a returned thread implies
every thread has arrived), and the state in which all N calls have returned
is reachable (all N calls return). -/
theorem barrier_rendezvous (N : Nat) (_h1N : 1 ≤ N) :
    (∀ s : BarrierState N, BarrierReach N N s →
      ∀ t : Fin N, s.pc t = ThreadPhase.finished →
        ∀ u : Fin N, s.pc u ≠ ThreadPhase.notArrived) ∧
    BarrierReach N N ⟨N, fun _ => ThreadPhase.finished⟩ := by
  constructor
  · intro s hs t ht u
    have hcount := barrier_inv_count hs
    have hfin := barrier_inv_finished hs t ht
    have hle : (arrivedSet s).card ≤ N := by
      calc (arrivedSet s).card
          ≤ Finset.univ.card := Finset.card_le_card (Finset.subset_univ _)
        _ = N := by simp
    have hcard : (arrivedSet s).card = N := by omega
    have huniv : arrivedSet s = Finset.univ :=
      Finset.eq_univ_of_card _ (by simpa using hcard)
    have hu : u ∈ arrivedSet s := huniv ▸ Finset.mem_univ u
    simpa [arrivedSet] using hu
  · have hr := reach_finishedUpTo N N le_rfl
    have heq : finishedUpTo N N =
        (⟨N, fun _ => ThreadPhase.finished⟩ : BarrierState N) := by
      unfold finishedUpTo
      congr 1
      funext t
      simp [t.isLt]
    rwa [heq] at hr

/-- Witness for C3 at the concrete participant count N = 3 used by the
contention trials: the all-returned state is reachable, and in it no thread
is still unarrived. -/
theorem barrier_rendezvous_witness :
    (⟨3, fun _ => ThreadPhase.finished⟩ : BarrierState 3).pc 0 ≠
        ThreadPhase.notArrived ∧
    BarrierReach 3 3 ⟨3, fun _ => ThreadPhase.finished⟩ := by
  have h := barrier_rendezvous 3 (by norm_num)
  exact ⟨h.1 _ h.2 0 rfl 0, h.2⟩

/-- C5: if only k < requiredParticipants threads ever call arriveAndWait(),
then in no reachable state has any of those callers returned: the polling
loop of line 281 never observes the exit condition, and the Barrier has no
timeout, so arriveAndWait never returns. -/
theorem barrier_starvation (R k : Nat) (hk : k < R) (s : BarrierState k)
    (hs : BarrierReach R k s) (t : Fin k) :
    s.pc t ≠ ThreadPhase.finished := by
  intro ht
  have hcount := barrier_inv_count hs
  have hfin := barrier_inv_finished hs t ht
  have hle : (arrivedSet s).card ≤ k := by
    calc (arrivedSet s).card
        ≤ Finset.univ.card := Finset.card_le_card (Finset.subset_univ _)
      _ = k := by simp
  omega

/-- Witness for C5 at the concrete sizes of the trials: requiredParticipants
3 with only 2 callers; in the initial reachable state thread 0 has not
returned. -/
theorem barrier_starvation_witness :
    (BarrierState.init 2).pc 0 ≠ ThreadPhase.finished :=
  barrier_starvation 3 2 (by norm_num) _ Relation.ReflTransGen.refl 0

/-- C4: Barrier construction initializes the arrival counter to zero, and
every transition of arriveAndWait is either the atomic increment of the
arrival counter by exactly one (entering the polling loop), or the return
of a polling thread, which can happen only when the arrival counter is no
longer less than requiredParticipants. -/
theorem arriveAndWait_semantics (R k : Nat) :
    (BarrierState.init k).numThreadsArrived = 0 ∧
    ∀ s sNext : BarrierState k, BarrierStep R s sNext →
      (∃ t : Fin k, s.pc t = ThreadPhase.notArrived ∧
        sNext.numThreadsArrived = s.numThreadsArrived + 1 ∧
        sNext.pc = Function.update s.pc t ThreadPhase.waiting) ∨
      (∃ t : Fin k, s.pc t = ThreadPhase.waiting ∧
        R ≤ s.numThreadsArrived ∧
        sNext.numThreadsArrived = s.numThreadsArrived ∧
        sNext.pc = Function.update s.pc t ThreadPhase.finished) := by
  refine ⟨rfl, ?_⟩
  intro s sNext hstep
  cases hstep with
  | arrive t h => exact Or.inl ⟨t, h, rfl, rfl⟩
  | exitPoll t h hge => exact Or.inr ⟨t, h, by omega, rfl, rfl⟩

/-- Witness for C4: at the initial state of a Barrier(3) shared by three
threads, the counter is zero, and the arrive step of thread 0 increments it
to exactly one. -/
theorem arriveAndWait_semantics_witness :
    (BarrierState.init 3).numThreadsArrived = 0 ∧
    (⟨(BarrierState.init 3).numThreadsArrived + 1,
      Function.update (BarrierState.init 3).pc 0 ThreadPhase.waiting⟩ :
      BarrierState 3).numThreadsArrived =
        (BarrierState.init 3).numThreadsArrived + 1 := by
  have h := arriveAndWait_semantics 3 3
  have h2 := h.2 (BarrierState.init 3) _
    (BarrierStep.arrive (BarrierState.init 3) 0 rfl)
  rcases h2 with ⟨t, ht, hc, hp⟩ | ⟨t, ht, hR, hc, hp⟩
  · exact ⟨h.1, hc⟩
  · exact absurd ht (by simp [BarrierState.init])

/-- Final value of the shared guarded counter over any interleaving in
which each of the W workers contributes exactly I guarded increments. -/
theorem runGuarded_of_counts (W I init : Nat) (hinit : init < 2 ^ 32)
    (sched : List (Fin W)) (hs : ∀ w : Fin W, sched.count w = I) :
    runGuarded init sched = (init + W * I) % 2 ^ 32 := by
  rw [runGuarded_eq_length sched init hinit, length_eq_sum_count]
  have hsum : (∑ w : Fin W, sched.count w) = W * I := by
    simp [hs, Finset.sum_const, Finset.card_univ, Nat.smul_one_eq_cast]
  rw [hsum]

/-- C2: in the shared-mutex scenario (BM_useMutex, lines 367-399, each
increment under lock_guard) and the atomic scenario (BM_useAtomic, lines
438-466, each increment an atomic read-modify-write), every increment is an
indivisible step, so after one trial in which W workers each perform I
guarded increments on the single shared counter starting from value init,
the counter holds exactly init + W * I (as a 32-bit value): no update is
lost in any interleaving.  In particular from init = 0 with W = 2 and
I = 1000000 the final value is 2000000. -/
theorem sharedCounter_no_lost_updates (W I init : Nat)
    (hinit : init < 2 ^ 32) (sched : List (Fin W))
    (hs : ∀ w : Fin W, sched.count w = I) :
    runGuarded init sched = (init + W * I) % 2 ^ 32 :=
  runGuarded_of_counts W I init hinit sched hs

/-- Concrete interleaving over two workers used by the witnesses: worker
0 performs its million guarded increments, then worker 1 performs its million. -/
def demoSchedule : List (Fin 2) :=
  List.replicate kNumIterationsMutex 0 ++ List.replicate kNumIterationsMutex 1

/-- Any element of Fin 2 is worker 0 or worker 1. -/
theorem fin2_eq_zero_or_one (w : Fin 2) : w = 0 ∨ w = 1 := by
  rcases w with ⟨v, hv⟩
  interval_cases v
  · exact Or.inl rfl
  · exact Or.inr rfl

theorem demoSchedule_count (w : Fin 2) :
    demoSchedule.count w = kNumIterationsMutex := by
  rcases fin2_eq_zero_or_one w with hw | hw <;>
  · subst hw
    unfold demoSchedule
    rw [List.count_append, List.count_replicate, List.count_replicate]
    norm_num

/-- Witness for C2 at the example pair given in the spec: two workers, one million
guarded increments each, shared counter starting at zero: final value
exactly 2000000. -/
theorem sharedCounter_no_lost_updates_witness :
    runGuarded 0 demoSchedule = 2000000 := by
  have h := sharedCounter_no_lost_updates 2 kNumIterationsMutex 0
    (by norm_num) demoSchedule demoSchedule_count
  rw [h]
  norm_num [kNumIterationsMutex]

/-- One trial of BM_falseSharing (src/benchmarks.cpp lines 299-324): worker
a increments only counterA.val (lines 302-306) and worker b increments only
counterB.val (lines 307-311); each counter is a std::uint32_t written by
exactly one thread, so each schedule entry is one 32-bit increment of the counter of its
owner.  The pair holds (counterA.val, counterB.val), starting
from the values a0 and b0 the counters had when the trial began. -/
def runFalseSharingTrial (a0 b0 : Nat) (sched : List (Fin 2)) : Nat × Nat :=
  sched.foldl
    (fun st w =>
      if w = (0 : Fin 2) then (inc32 st.1, st.2) else (st.1, inc32 st.2))
    (a0, b0)

theorem runFalseSharingTrial_eq (sched : List (Fin 2)) :
    ∀ a0 b0 : Nat, a0 < 2 ^ 32 → b0 < 2 ^ 32 →
      runFalseSharingTrial a0 b0 sched =
        ((a0 + sched.count 0) % 2 ^ 32, (b0 + sched.count 1) % 2 ^ 32) := by
  induction sched with
  | nil =>
      intro a0 b0 ha hb
      simp only [runFalseSharingTrial, List.foldl_nil, List.count_nil,
        Nat.add_zero]
      rw [Nat.mod_eq_of_lt ha, Nat.mod_eq_of_lt hb]
  | cons x xs ih =>
      intro a0 b0 ha hb
      rcases fin2_eq_zero_or_one x with hx | hx <;> subst hx
      · have hstep : runFalseSharingTrial a0 b0 (0 :: xs) =
            runFalseSharingTrial (inc32 a0) b0 xs := by
          simp [runFalseSharingTrial]
        rw [hstep, ih (inc32 a0) b0 (inc32_lt a0) hb]
        rw [List.count_cons, List.count_cons]
        simp only [inc32, Prod.mk.injEq]
        constructor <;> norm_num <;> omega
      · have hstep : runFalseSharingTrial a0 b0 (1 :: xs) =
            runFalseSharingTrial a0 (inc32 b0) xs := by
          simp [runFalseSharingTrial]
        rw [hstep, ih a0 (inc32 b0) ha (inc32_lt b0)]
        rw [List.count_cons, List.count_cons]
        simp only [inc32, Prod.mk.injEq]
        constructor <;> norm_num <;> omega

/-- C6: after one trial of the racy false-sharing scenario in which each of
the two workers performs kNumIterationsFalseSharing non-atomic increments
on its own counter starting from zero, the final
value is at most its iteration count (each counter has a single writer
thread, so within one trial no update of it can be lost and its value is in
fact exact), and the value stays in the 32-bit range: no corruption beyond
the possibility of lost increments. -/
theorem falseSharing_counters_bounded (sched : List (Fin 2))
    (h0 : sched.count 0 = kNumIterationsFalseSharing)
    (h1 : sched.count 1 = kNumIterationsFalseSharing) :
    (runFalseSharingTrial 0 0 sched).1 ≤ kNumIterationsFalseSharing ∧
    (runFalseSharingTrial 0 0 sched).2 ≤ kNumIterationsFalseSharing ∧
    (runFalseSharingTrial 0 0 sched).1 < 2 ^ 32 ∧
    (runFalseSharingTrial 0 0 sched).2 < 2 ^ 32 := by
  rw [runFalseSharingTrial_eq sched 0 0 (by norm_num) (by norm_num), h0, h1]
  norm_num [kNumIterationsFalseSharing]

/-- Witness for C6 on a concrete interleaving with one million increments
per worker. -/
theorem falseSharing_counters_bounded_witness :
    (runFalseSharingTrial 0 0 demoSchedule).1 ≤ kNumIterationsFalseSharing ∧
    (runFalseSharingTrial 0 0 demoSchedule).2 ≤ kNumIterationsFalseSharing ∧
    (runFalseSharingTrial 0 0 demoSchedule).1 < 2 ^ 32 ∧
    (runFalseSharingTrial 0 0 demoSchedule).2 < 2 ^ 32 := by
  have hc : ∀ w : Fin 2, demoSchedule.count w = kNumIterationsFalseSharing := by
    intro w
    rw [demoSchedule_count w]
    rfl
  exact falseSharing_counters_bounded demoSchedule (hc 0) (hc 1)

/-- One trial of BM_useMutexNoContention (src/benchmarks.cpp lines
404-435): each worker constructs its own private std::mutex and its own
private counter initialized to zero (lines 408-409 and 417-418) and
performs kNumIterationsMutex lock-increment-unlock cycles on it (lines
410-413 and 419-422); a schedule entry is one such guarded increment by its
worker, and the pair holds the two private counters. -/
def runIndependentMutexTrial (sched : List (Fin 2)) : Nat × Nat :=
  sched.foldl
    (fun st w =>
      if w = (0 : Fin 2) then (inc32 st.1, st.2) else (st.1, inc32 st.2))
    (0, 0)

/-- C7: in the independent-mutex scenario each worker has a private mutex
and private counter (no state shared between workers), and after one trial
the private counter of each worker equals exactly its own iteration count,
whatever the interleaving: the other worker cannot interfere. -/
theorem independentMutex_exact (sched : List (Fin 2))
    (h0 : sched.count 0 = kNumIterationsMutex)
    (h1 : sched.count 1 = kNumIterationsMutex) :
    runIndependentMutexTrial sched =
      (kNumIterationsMutex, kNumIterationsMutex) := by
  have hrfl : runIndependentMutexTrial sched = runFalseSharingTrial 0 0 sched :=
    rfl
  rw [hrfl, runFalseSharingTrial_eq sched 0 0 (by norm_num) (by norm_num),
    h0, h1]
  norm_num [kNumIterationsMutex]

/-- Witness for C7 on a concrete interleaving with one million guarded
increments per worker: both private counters end at exactly 1000000. -/
theorem independentMutex_exact_witness :
    runIndependentMutexTrial demoSchedule =
      (kNumIterationsMutex, kNumIterationsMutex) :=
  independentMutex_exact demoSchedule (demoSchedule_count 0)
    (demoSchedule_count 1)

/-- Synchronization strategy guarding the counter increments of each worker. -/
inductive Guard where
  | unguarded : Guard
  | sharedMutex : Guard
  | privateMutex : Guard
  | atomicRMW : Guard
deriving DecidableEq

/-- Static shape of one contention benchmark, read directly off its source
text.  Fields, in order: number of worker threads spawned per trial; the
argument passed to the Barrier constructor at the top of the trial body;
iterations per worker; alignment in bytes of each counter object; whether
all workers increment one shared counter; the guard of each increment;
whether the counter object is declared (and zero-initialized) outside the
per-trial loop; and whether the benchmark is registered with
UseManualTime(). -/
structure ScenarioConfig where
  numWorkers : Nat
  barrierParticipants : Nat
  itersPerWorker : Nat
  counterAlignment : Nat
  sharedCounter : Bool
  guard : Guard
  counterInitOutsideTrialLoop : Bool
  manualTime : Bool
deriving DecidableEq

/-- BM_falseSharing, src/benchmarks.cpp lines 292-325 and 489: two workers
(lines 302, 307), Barrier(3) (line 300), kNumIterationsFalseSharing
unguarded increments per worker (lines 304-305, 309-310), two 4-byte-
aligned struct Counter objects holding a std::uint32_t each (lines
295-297), declared before the trial loop, one per worker; registered with
UseManualTime() (line 489). -/
def falseSharingScenario : ScenarioConfig :=
  ⟨2, 3, kNumIterationsFalseSharing, 4, false, Guard.unguarded, true, true⟩

/-- BM_noFalseSharing, lines 327-359 and 490: two workers (lines 335, 341),
Barrier(3) (line 334), kNumIterationsFalseSharing unguarded increments per
worker (lines 338-339, 344-345), two struct Counter objects declared
alignas(128) (lines 329-331) before the trial loop, one per worker;
registered with UseManualTime() (line 490). -/
def noFalseSharingScenario : ScenarioConfig :=
  ⟨2, 3, kNumIterationsFalseSharing, 128, false, Guard.unguarded, true, true⟩

/-- BM_useMutex, lines 367-399 and 492: two workers (lines 372, 379),
Barrier(3) (line 371), kNumIterationsMutex increments per worker each under
lock_guard on the one shared mutex (lines 374-377, 381-384), one shared
4-byte std::uint32_t counter declared before the trial loop (line 369);
registered with UseManualTime() (line 492). -/
def useMutexScenario : ScenarioConfig :=
  ⟨2, 3, kNumIterationsMutex, 4, true, Guard.sharedMutex, true, true⟩

/-- BM_useMutexNoContention, lines 403-436 and 493: two workers (lines 406,
415), Barrier(2) (line 405), kNumIterationsMutex increments per worker,
each worker on its own private mutex and private 4-byte std::uint32_t
counter constructed inside the worker lambda (lines 408-413, 417-422), so
the counters live inside the trial loop; registered with UseManualTime()
(line 493). -/
def useMutexNoContentionScenario : ScenarioConfig :=
  ⟨2, 2, kNumIterationsMutex, 4, false, Guard.privateMutex, false, true⟩

/-- BM_useAtomic, lines 438-466 and 494: two workers (lines 443, 449),
Barrier(2) (line 442), kNumIterationsMutex atomic increments per worker
(lines 445-447, 451-452) on one shared 4-byte std::atomic_int32_t counter
declared inside the trial loop (line 440); registered with UseManualTime()
(line 494). -/
def useAtomicScenario : ScenarioConfig :=
  ⟨2, 2, kNumIterationsMutex, 4, true, Guard.atomicRMW, false, true⟩

/-- C1 counterexample: the atomic scenario spawns two workers but its trial
constructs Barrier(2) (src/benchmarks.cpp line 442), not
Barrier(workerCount + 1) = Barrier(3), so the claim fails on BM_useAtomic
(and likewise on BM_useMutexNoContention, line 405). -/
theorem barrier_size_claim_counterexample :
    useAtomicScenario.numWorkers = 2 ∧
    useAtomicScenario.barrierParticipants = 2 ∧
    useAtomicScenario.barrierParticipants ≠ useAtomicScenario.numWorkers + 1 := by
  refine ⟨rfl, rfl, ?_⟩
  decide

/-- C1 amended: the false-sharing, no-false-sharing and shared-mutex trials
construct their Barrier with requiredParticipants = workerCount + 1 = 3,
reserving the slot for the controller thread, but the independent-mutex and
atomic trials construct it with requiredParticipants = workerCount = 2, one
less than the number of threads that call arriveAndWait (two workers plus
the controller), so in those two trials the start timestamp of the controller
can be taken before the last thread has reached the rendezvous point. -/
theorem barrier_size_per_scenario :
    falseSharingScenario.barrierParticipants =
        falseSharingScenario.numWorkers + 1 ∧
    noFalseSharingScenario.barrierParticipants =
        noFalseSharingScenario.numWorkers + 1 ∧
    useMutexScenario.barrierParticipants = useMutexScenario.numWorkers + 1 ∧
    useMutexNoContentionScenario.barrierParticipants =
        useMutexNoContentionScenario.numWorkers ∧
    useAtomicScenario.barrierParticipants = useAtomicScenario.numWorkers :=
  ⟨rfl, rfl, rfl, rfl, rfl⟩

/-- C8: the no-false-sharing scenario is identical to the false-sharing
scenario — same two workers, same Barrier(3) protocol, same per-worker
non-atomic increment loop with the same iteration count, same counter
lifetime and the same manual-time reporting — except that each counter
struct is aligned to 128 bytes, at least a typical cache line, instead of
the natural 4-byte alignment. -/
theorem noFalseSharing_differs_only_in_alignment :
    noFalseSharingScenario =
      { falseSharingScenario with counterAlignment := 128 } ∧
    128 ≤ noFalseSharingScenario.counterAlignment ∧
    falseSharingScenario.counterAlignment = 4 :=
  ⟨rfl, by decide, rfl⟩

/-- One action of the controller thread inside a trial body. -/
inductive TrialEvent where
  | spawnWorker : Nat → TrialEvent
  | controllerArrive : TrialEvent
  | recordStart : TrialEvent
  | joinWorker : Nat → TrialEvent
  | recordEnd : TrialEvent
  | setIterationTime : ℚ → TrialEvent
deriving DecidableEq

/-- Value computed on src/benchmarks.cpp lines 319-321 and passed to
state.SetIterationTime on line 323:
duration_cast<duration<double>>(end - start).count(), the elapsed time in
seconds.  Clock readings are modelled as integer nanosecond ticks of
high_resolution_clock; the conversion to seconds is modelled exactly, as a
rational, abstracting only the final rounding to double. -/
def elapsedSeconds (startTicks endTicks : ℤ) : ℚ :=
  ((endTicks - startTicks : ℤ) : ℚ) / 1000000000

/-- Controller-thread event trace of one trial of BM_falseSharing
(src/benchmarks.cpp lines 299-324), in program order; BM_noFalseSharing,
BM_useMutex, BM_useMutexNoContention and BM_useAtomic have the identical
controller structure.  The controller spawns worker a (line 302), spawns
worker b (line 307), calls barrier.arriveAndWait() (line 313), reads the
start clock on the very next statement (line 314), joins a (line 315),
joins b (line 316), reads the end clock on the next statement (line 317),
and finally reports the elapsed seconds through state.SetIterationTime
(line 323), the only report in the body. -/
def controllerTrace (startTicks endTicks : ℤ) : List TrialEvent :=
  [TrialEvent.spawnWorker 0, TrialEvent.spawnWorker 1,
   TrialEvent.controllerArrive, TrialEvent.recordStart,
   TrialEvent.joinWorker 0, TrialEvent.joinWorker 1,
   TrialEvent.recordEnd,
   TrialEvent.setIterationTime (elapsedSeconds startTicks endTicks)]

/-- Recognizer of the manual-timing report event. -/
def TrialEvent.isReport : TrialEvent → Bool
  | TrialEvent.setIterationTime _ => true
  | _ => false

/-- C9: in every trial the controller records the start timestamp
immediately after its own arriveAndWait returns, records the end timestamp
immediately after joining both worker threads, and makes exactly one
manual-timing report per trial — the last action of the body — whose value
is exactly the duration end - start converted to seconds. -/
theorem controller_reports_elapsed (s e : ℤ) :
    (controllerTrace s e).countP TrialEvent.isReport = 1 ∧
    (controllerTrace s e).getLast? =
      some (TrialEvent.setIterationTime (elapsedSeconds s e)) ∧
    elapsedSeconds s e = ((e : ℚ) - (s : ℚ)) / 1000000000 ∧
    (controllerTrace s e)[2]? = some TrialEvent.controllerArrive ∧
    (controllerTrace s e)[3]? = some TrialEvent.recordStart ∧
    (controllerTrace s e)[4]? = some (TrialEvent.joinWorker 0) ∧
    (controllerTrace s e)[5]? = some (TrialEvent.joinWorker 1) ∧
    (controllerTrace s e)[6]? = some TrialEvent.recordEnd := by
  refine ⟨rfl, rfl, ?_, rfl, rfl, rfl, rfl, rfl⟩
  unfold elapsedSeconds
  push_cast
  ring

/-- Effect on counterA.val of the loop of worker a in one BM_falseSharing trial
(src/benchmarks.cpp lines 303-305): kNumIterationsFalseSharing 32-bit
increments of the value the counter had when the trial began.  No other
statement of the program writes counterA. -/
def falseSharingTrialA (a : Nat) : Nat :=
  inc32^[kNumIterationsFalseSharing] a

/-- Value of counterA.val of BM_falseSharing after T trials of one
benchmark invocation: counterA is declared and zero-initialized once,
before the trial loop (lines 295-297), and never reset, so the trials
accumulate. -/
def falseSharingCounterAcrossTrials (T : Nat) : Nat :=
  falseSharingTrialA^[T] 0

/-- Counter of BM_useMutex across one benchmark invocation: the counter is
declared and zero-initialized once, before the trial loop (line 369), and
carried from trial to trial; each trial contributes one interleaving of
guarded increments. -/
def useMutexCounterAcrossTrials (trials : List (List (Fin 2))) : Nat :=
  trials.foldl (fun c sched => runGuarded c sched) 0

/-- Per-trial final values of the BM_useAtomic counter: the counter is
declared and zero-initialized inside the trial loop (line 440), so every
trial starts from zero. -/
def useAtomicCounterPerTrial (trials : List (List (Fin 2))) : List Nat :=
  (trials.map fun sched => runGuarded 0 sched)

theorem inc32_iterate (n : Nat) :
    ∀ c : Nat, c < 2 ^ 32 → inc32^[n] c = (c + n) % 2 ^ 32 := by
  induction n with
  | zero =>
      intro c h
      simpa using (Nat.mod_eq_of_lt h).symm
  | succ n ih =>
      intro c h
      rw [Function.iterate_succ_apply, ih (inc32 c) (inc32_lt c)]
      simp only [inc32]
      omega

theorem falseSharingCounter_general (T : Nat) :
    ∀ c : Nat, c < 2 ^ 32 →
      falseSharingTrialA^[T] c =
        (c + kNumIterationsFalseSharing * T) % 2 ^ 32 := by
  induction T with
  | zero =>
      intro c h
      simpa using (Nat.mod_eq_of_lt h).symm
  | succ T ih =>
      intro c h
      have htrial : falseSharingTrialA c =
          (c + kNumIterationsFalseSharing) % 2 ^ 32 :=
        inc32_iterate kNumIterationsFalseSharing c h
      have hlt : falseSharingTrialA c < 2 ^ 32 := by
        rw [htrial]
        exact Nat.mod_lt _ (by norm_num)
      rw [Function.iterate_succ_apply, ih (falseSharingTrialA c) hlt, htrial]
      simp only [kNumIterationsFalseSharing]
      have hexp : 1000000 * (T + 1) = 1000000 * T + 1000000 := by ring
      rw [hexp]
      omega

theorem useMutexCounter_general (trials : List (List (Fin 2)))
    (hv : ∀ sched ∈ trials, ∀ w : Fin 2,
      sched.count w = kNumIterationsMutex) :
    ∀ c : Nat, c < 2 ^ 32 →
      trials.foldl (fun c sched => runGuarded c sched) c =
        (c + 2 * kNumIterationsMutex * trials.length) % 2 ^ 32 := by
  induction trials with
  | nil =>
      intro c h
      simpa using (Nat.mod_eq_of_lt h).symm
  | cons sched ss ih =>
      intro c h
      have hsched := runGuarded_of_counts 2 kNumIterationsMutex c h sched
        (hv sched (by simp))
      have hvv : ∀ s ∈ ss, ∀ w : Fin 2, s.count w = kNumIterationsMutex := by
        intro s hsmem w
        exact hv s (by simp [hsmem]) w
      have hlt : runGuarded c sched < 2 ^ 32 := by
        rw [hsched]
        exact Nat.mod_lt _ (by norm_num)
      rw [List.foldl_cons, ih hvv (runGuarded c sched) hlt, hsched]
      simp only [List.length_cons, kNumIterationsMutex]
      have hexp : 2 * 1000000 * (ss.length + 1) =
          2 * 1000000 * ss.length + 2 * 1000000 := by ring
      rw [hexp]
      omega

/-- C10: the BM_useMutex shared counter and the BM_falseSharing counters
are declared and zero-initialized once per benchmark invocation, outside
the per-trial loop, and never reset, so their values accumulate across
successive trials modulo 2^32; by contrast, the BM_useAtomic counter is
re-initialized to zero at the start of every trial, so every trial of it
ends at exactly 2 * kNumIterationsMutex regardless of how many trials ran
before. -/
theorem counter_init_placement (trials : List (List (Fin 2)))
    (hv : ∀ sched ∈ trials, ∀ w : Fin 2,
      sched.count w = kNumIterationsMutex) (T : Nat) :
    useMutexCounterAcrossTrials trials =
      (2 * kNumIterationsMutex * trials.length) % 2 ^ 32 ∧
    (∀ v ∈ useAtomicCounterPerTrial trials, v = 2 * kNumIterationsMutex) ∧
    falseSharingCounterAcrossTrials T =
      (kNumIterationsFalseSharing * T) % 2 ^ 32 ∧
    useMutexScenario.counterInitOutsideTrialLoop = true ∧
    falseSharingScenario.counterInitOutsideTrialLoop = true ∧
    useAtomicScenario.counterInitOutsideTrialLoop = false := by
  refine ⟨?_, ?_, ?_, rfl, rfl, rfl⟩
  · have h := useMutexCounter_general trials hv 0 (by norm_num)
    simpa [useMutexCounterAcrossTrials] using h
  · intro v hvmem
    obtain ⟨sched, hsmem, rfl⟩ := List.mem_map.mp hvmem
    have h := runGuarded_of_counts 2 kNumIterationsMutex 0 (by norm_num)
      sched (hv sched hsmem)
    rw [h]
    norm_num [kNumIterationsMutex]
  · have h := falseSharingCounter_general T 0 (by norm_num)
    simpa [falseSharingCounterAcrossTrials] using h

/-- Witness for C10 on a concrete invocation of two trials, each the
interleaving demoSchedule: the mutex counter accumulates to 4000000, every
atomic trial ends at 2000000, and counterA of the false-sharing benchmark
accumulates to 2000000. -/
theorem counter_init_placement_witness :
    useMutexCounterAcrossTrials [demoSchedule, demoSchedule] = 4000000 ∧
    (∀ v ∈ useAtomicCounterPerTrial [demoSchedule, demoSchedule],
      v = 2000000) ∧
    falseSharingCounterAcrossTrials 2 = 2000000 := by
  have hv : ∀ sched ∈ [demoSchedule, demoSchedule], ∀ w : Fin 2,
      sched.count w = kNumIterationsMutex := by
    intro sched hmem w
    rcases List.mem_cons.mp hmem with hmem | hmem
    · rw [hmem]
      exact demoSchedule_count w
    · rcases List.mem_cons.mp hmem with hmem | hmem
      · rw [hmem]
        exact demoSchedule_count w
      · exact absurd hmem (List.not_mem_nil sched)
  have h := counter_init_placement [demoSchedule, demoSchedule] hv 2
  obtain ⟨h1, h2, h3, _, _, _⟩ := h
  refine ⟨?_, ?_, ?_⟩
  · rw [h1]
    norm_num [kNumIterationsMutex]
  · intro v hvmem
    rw [h2 v hvmem]
    norm_num [kNumIterationsMutex]
  · rw [h3]
    norm_num [kNumIterationsFalseSharing]

end Benchmarks
